import Mathlib

/-!
Verification development for the parallel-bus library `parallel.c`
(marko-pi/parallel).  The definitions below are a shallow embedding of the
C source: machine integers are modelled as `Nat` (with explicit `% 2^w`
where C overflow semantics matter), the memory-mapped GPIO register writes
are modelled as an explicit event trace, and the busy-wait timing gate is
modelled by explicit state passing with the clock readings supplied as
parameters.
-/

namespace Parallel

/-- `UNDEFINED` sentinel for an unused pin (`#define UNDEFINED 0xFFFF`). -/
def UNDEFINED : Nat := 0xFFFF

/-- `PI_INPUT` function-select mode. -/
def PI_INPUT : Nat := 0

/-- `PI_OUTPUT` function-select mode. -/
def PI_OUTPUT : Nat := 1

/-! ## Timing gate: `struct timespec`, the `WAIT()` and `SET()` macros -/

/-- `struct timespec`, as used with `CLOCK_MONOTONIC` (both fields
non-negative; `tv_nsec` is kept as an unconstrained `Nat` because the code
itself can leave it un-normalised). -/
structure Timespec where
  tv_sec : Nat
  tv_nsec : Nat
  deriving DecidableEq, Repr

/-- Value of a timespec in nanoseconds, the quantity
`t.tv_sec * 1000000000 + t.tv_nsec` computed by `WAIT()`. -/
def toNs (t : Timespec) : Nat := t.tv_sec * 1000000000 + t.tv_nsec

/-- The shared timing state: `ttime` (time of the last execution) and
`timing` (time to wait for the next execution).  In the C source these are
the file-scope globals of `parallel.c` (lines 92-94), shared between all
chip descriptors. -/
structure TimingState where
  ttime : Timespec
  timing : Nat
  deriving DecidableEq, Repr

/-- Effect of the `WAIT()` macro on `ttime`, given the clock reading `e`
obtained by its first `clock_gettime` call: if `e` has reached
`ttime + timing` the cursor is stretched to `e`, otherwise it is kept. -/
def WAITupd (st : TimingState) (e : Timespec) : TimingState :=
  if toNs st.ttime + st.timing ≤ toNs e then { st with ttime := e } else st

/-- The target `ntime` that the busy-wait loop of `WAIT()` spins towards:
`ttime + timing`, re-armed to `e + timing` when the entry reading `e` had
already reached the original target. -/
def WAITtarget (st : TimingState) (e : Timespec) : Nat :=
  if toNs st.ttime + st.timing ≤ toNs e then toNs e + st.timing
  else toNs st.ttime + st.timing

/-- Postcondition of the busy-wait loop of `WAIT()`: the loop breaks at the
first clock reading `r` with `toNs r ≥ ntime`. -/
def WAITreturns (st : TimingState) (e r : Timespec) : Prop :=
  WAITtarget st e ≤ toNs r

/-- The `SET()` macro on the raw timespec: add `timing` to `tv_nsec` and
carry into `tv_sec` at most once. -/
def SETtime (t : Timespec) (timing : Nat) : Timespec :=
  if t.tv_nsec + timing ≥ 1000000000 then
    { tv_sec := t.tv_sec + 1, tv_nsec := t.tv_nsec + timing - 1000000000 }
  else
    { t with tv_nsec := t.tv_nsec + timing }

/-- Effect of the `SET()` macro on the timing state. -/
def SETupd (st : TimingState) : TimingState :=
  { st with ttime := SETtime st.ttime st.timing }

/-- Effect of `initialise` (lines 421-422) on the shared timing state: the
cursor is reset to the current clock reading and the pending delay to 0,
regardless of the previous contents. -/
def initialiseTiming (now : Timespec) : TimingState :=
  { ttime := now, timing := 0 }

/-! ## Chip descriptor (`union chip` / `struct chipdata`) and `initialise` -/

/-- `struct chipdata`: eight data lines, three control lines, protocol and
five wait times, all C `unsigned`. -/
structure ChipData where
  d7 : Nat
  d6 : Nat
  d5 : Nat
  d4 : Nat
  d3 : Nat
  d2 : Nat
  d1 : Nat
  d0 : Nat
  rscd : Nat
  enwr : Nat
  rwrd : Nat
  protocol : Nat
  tsetup : Nat
  tclock : Nat
  tread : Nat
  tproc : Nat
  thold : Nat
  deriving DecidableEq, Repr

/-- The `union chip` overlay `pins[11]` of the eleven pin fields, in struct
order `d7 d6 d5 d4 d3 d2 d1 d0 rscd enwr rwrd`. -/
def pins (c : ChipData) : Nat → Nat
  | 0 => c.d7
  | 1 => c.d6
  | 2 => c.d5
  | 3 => c.d4
  | 4 => c.d3
  | 5 => c.d2
  | 6 => c.d1
  | 7 => c.d0
  | 8 => c.rscd
  | 9 => c.enwr
  | 10 => c.rwrd
  | _ => 0

/-- `bpc` ("bits per cycle") as computed at the top of `readparallel` and
`writeparallel`: 4 when `d0` is `UNDEFINED`, else 8. -/
def bpc (c : ChipData) : Nat := if c.d0 = UNDEFINED then 4 else 8

/-- The C cast `(unsigned)x` applied to an `int` value. -/
def toU32 (x : Int) : Nat := (x % 4294967296).toNat

/-- The field-normalisation part of `initialise` (lines 373-394): `d3..d0`
and `rwrd` become `UNDEFINED` when outside `[0, 27]`, the remaining fields
are stored through the plain `(unsigned)` cast. -/
def initialiseData (d7 d6 d5 d4 d3 d2 d1 d0 rscd enwr rwrd protocol
    tsetup tclock tread tproc thold : Int) : ChipData :=
  { d7 := toU32 d7
    d6 := toU32 d6
    d5 := toU32 d5
    d4 := toU32 d4
    d3 := if d3 > 27 ∨ d3 < 0 then UNDEFINED else toU32 d3
    d2 := if d2 > 27 ∨ d2 < 0 then UNDEFINED else toU32 d2
    d1 := if d1 > 27 ∨ d1 < 0 then UNDEFINED else toU32 d1
    d0 := if d0 > 27 ∨ d0 < 0 then UNDEFINED else toU32 d0
    rscd := toU32 rscd
    enwr := toU32 enwr
    rwrd := if rwrd > 27 ∨ rwrd < 0 then UNDEFINED else toU32 rwrd
    protocol := toU32 protocol
    tsetup := toU32 tsetup
    tclock := toU32 tclock
    tread := toU32 tread
    tproc := toU32 tproc
    thold := toU32 thold }

/-- The descriptor invariant of §3 of the specification: every defined pin
is in `[0, 27]` (with `d7..d4`, `rscd`, `enwr` always defined), and the
low data nibble is either wholly defined (8-bit mode) or wholly `UNDEFINED`
(4-bit mode). -/
def descInvariant (c : ChipData) : Prop :=
  c.d7 ≤ 27 ∧ c.d6 ≤ 27 ∧ c.d5 ≤ 27 ∧ c.d4 ≤ 27 ∧
  c.rscd ≤ 27 ∧ c.enwr ≤ 27 ∧
  (c.rwrd = UNDEFINED ∨ c.rwrd ≤ 27) ∧
  (c.d0 = UNDEFINED → c.d3 = UNDEFINED ∧ c.d2 = UNDEFINED ∧ c.d1 = UNDEFINED) ∧
  (c.d0 ≠ UNDEFINED → c.d3 ≤ 27 ∧ c.d2 ≤ 27 ∧ c.d1 ≤ 27 ∧ c.d0 ≤ 27)

instance (c : ChipData) : Decidable (descInvariant c) := by
  unfold descInvariant; infer_instance

/-! ## Timing evolution of `writeparallel`

`writeparallel` alternates `WAIT(); <register writes>; SET(); timing := T`.
The clock readings taken at the head of each `WAIT()` are supplied as an
oracle list, one per `WAIT()` executed, consumed in order. -/

/-- One `j`-loop iteration of `writeparallel` (lines 303-338), timing part:
`WAIT; SET; timing := tclock; WAIT; SET; timing := (j = 1 ? tproc : tclock)`. -/
def phaseTiming (c : ChipData) (last : Bool) (st : TimingState)
    (e1 e2 : Timespec) : TimingState :=
  let a := { SETupd (WAITupd st e1) with timing := c.tclock }
  { SETupd (WAITupd a e2) with timing := if last then c.tproc else c.tclock }

/-- The `j`-loop of `writeparallel`, timing part, counting `j` down to 1;
each phase consumes two oracle entries. -/
def jloopTiming (c : ChipData) : Nat → TimingState → List Timespec →
    TimingState × List Timespec
  | 0, st, o => (st, o)
  | j + 1, st, o =>
      jloopTiming c j (phaseTiming c (j == 0) st (o.headD ⟨0, 0⟩)
        ((o.drop 1).headD ⟨0, 0⟩)) (o.drop 2)

/-- The byte loop of `writeparallel`, timing part. -/
def bytesTiming (c : ChipData) : Nat → TimingState → List Timespec →
    TimingState × List Timespec
  | 0, st, o => (st, o)
  | n + 1, st, o =>
      bytesTiming c n (jloopTiming c (8 / bpc c) st o).1
        (jloopTiming c (8 / bpc c) st o).2

/-- Timing evolution of a whole `writeparallel` call on `datanum` bytes:
the entry `WAIT; SET; timing := tsetup` (lines 288-296) followed by the
byte loop. -/
def writeparallelTiming (c : ChipData) (datanum : Nat) (st : TimingState)
    (o : List Timespec) : TimingState :=
  let st1 := { SETupd (WAITupd st (o.headD ⟨0, 0⟩)) with timing := c.tsetup }
  (bytesTiming c datanum st1 (o.drop 1)).1

/-- Timing evolution of `writecommand`: a one-byte `writeparallel`. -/
def writecommandTiming (c : ChipData) (st : TimingState)
    (o : List Timespec) : TimingState :=
  writeparallelTiming c 1 st o

/-! ## GPIO register write traces of the transfer engine -/

/-- One memory-mapped GPIO register access performed by the engine. -/
inductive Ev where
  /-- `gpioReg[idx] = val` for a function-select word `idx ∈ {0,1,2}`. -/
  | fsel : Nat → Nat → Ev
  /-- `*(gpioReg + GPCLR0) = mask`. -/
  | clr : Nat → Ev
  /-- `*(gpioReg + GPSET0) = mask`. -/
  | set : Nat → Ev
  /-- a read of `*(gpioReg + GPLEV0)`. -/
  | lev : Ev
  deriving DecidableEq, Repr

/-- One step of the data-bit loop of `writeparallel` (lines 309-314):
test the top bit of `datum`, OR the pin bit into `set` or `clr`, shift
`datum` left by one (as a C `unsigned char`). -/
def dataStep (c : ChipData) (k : Nat) (st : Nat × Nat × Nat) : Nat × Nat × Nat :=
  if 0 < st.2.2 &&& 0x80 then (st.1, st.2.1 ||| (1 <<< pins c k), (st.2.2 <<< 1) % 256)
  else (st.1 ||| (1 <<< pins c k), st.2.1, (st.2.2 <<< 1) % 256)

/-- The data-bit loop of `writeparallel`, `k = 0 .. n-1`. -/
def dataLoop (c : ChipData) (n : Nat) (st : Nat × Nat × Nat) : Nat × Nat × Nat :=
  (List.range n).foldl (fun s k => dataStep c k s) st

/-- The `clr`/`set` masks built by one phase of `writeparallel`
(lines 305-314): start from the strobe bit (6800 in `set`, 8080 in `clr`)
and accumulate the `bpc` data bits; also returns the shifted datum. -/
def phaseMasks (c : ChipData) (datum : Nat) : Nat × Nat × Nat :=
  dataLoop c (bpc c)
    (if c.protocol = 8080 then 1 <<< c.enwr else 0,
     if c.protocol = 6800 then 1 <<< c.enwr else 0, datum)

/-- GPIO writes of one phase of `writeparallel` (lines 316-334): the
mask commit (6800: clear word then set word, 8080: set word then clear
word) followed by the strobe inversion. -/
def writePhaseEvs (c : ChipData) (datum : Nat) : List Ev :=
  (if c.protocol = 6800 then
    [Ev.clr (phaseMasks c datum).1, Ev.set (phaseMasks c datum).2.1] else []) ++
  (if c.protocol = 8080 then
    [Ev.set (phaseMasks c datum).2.1, Ev.clr (phaseMasks c datum).1] else []) ++
  (if c.protocol = 6800 then [Ev.clr (1 <<< c.enwr)] else []) ++
  (if c.protocol = 8080 then [Ev.set (1 <<< c.enwr)] else [])

/-- GPIO writes of the `j`-loop of `writeparallel` for one byte, with the
datum threaded through the phases. -/
def writeJEvs (c : ChipData) : Nat → Nat → List Ev
  | 0, _ => []
  | j + 1, datum => writePhaseEvs c datum ++ writeJEvs c j (phaseMasks c datum).2.2

/-- GPIO writes for one byte of `writeparallel`: `8 / bpc` phases. -/
def writeByteEvs (c : ChipData) (datum : Nat) : List Ev :=
  writeJEvs c (8 / bpc c) datum

/-! ### Function-select snapshot buffer (`gpioBuf[3]`) -/

/-- The local function-select snapshot `uint32_t gpioBuf[3]`. -/
structure Buf3 where
  w0 : Nat
  w1 : Nat
  w2 : Nat
  deriving DecidableEq, Repr

/-- `gpioBuf[i]`. -/
def bufGet (b : Buf3) (i : Nat) : Nat :=
  if i = 0 then b.w0 else if i = 1 then b.w1 else b.w2

/-- `gpioBuf[i] = v`. -/
def bufSet (b : Buf3) (i v : Nat) : Buf3 :=
  if i = 0 then { b with w0 := v }
  else if i = 1 then { b with w1 := v }
  else { b with w2 := v }

/-- `shift = (pin % 10) * 3`, as in `gpioSetMode`. -/
def fieldShift (p : Nat) : Nat := (p % 10) * 3

/-- `(w & ~(7 << shift)) | (mode << shift)` on a 32-bit word. -/
def setModeWord (w p m : Nat) : Nat :=
  (w &&& (4294967295 ^^^ (7 <<< fieldShift p))) ||| (m <<< fieldShift p)

/-- `(w >> shift) & 7`, the 3-bit function-select field of pin `p`. -/
def getModeWord (w p : Nat) : Nat := (w >>> fieldShift p) &&& 7

/-- Stage a mode change for pin `p` in the snapshot buffer
(`gpioBuf[p/10] = (gpioBuf[p/10] & ~(7<<shift)) | (mode<<shift)`). -/
def setPinMode (b : Buf3) (p m : Nat) : Buf3 :=
  bufSet b (p / 10) (setModeWord (bufGet b (p / 10)) p m)

/-- The direction loops of `writeparallel` (lines 281-286 and 342-347):
stage mode `m` for data pins `pins[0] .. pins[n-1]`. -/
def setPinsMode (c : ChipData) (n m : Nat) (b : Buf3) : Buf3 :=
  (List.range n).foldl (fun b i => setPinMode b (pins c i) m) b

/-- Function-select field of pin `p` in the snapshot buffer. -/
def getMode (b : Buf3) (p : Nat) : Nat := getModeWord (bufGet b (p / 10)) p

/-- The snapshot buffer with every looped data pin staged to output
(`writeparallel` lines 281-286). -/
def writeOutBuf (c : ChipData) (b : Buf3) : Buf3 :=
  setPinsMode c (bpc c) PI_OUTPUT b

/-- The snapshot buffer committed at the end of `writeparallel`
(lines 342-347): the same local `gpioBuf`, with every looped data pin
staged back to input. -/
def writeFinalBuf (c : ChipData) (b : Buf3) : Buf3 :=
  setPinsMode c (bpc c) PI_INPUT (writeOutBuf c b)

/-- Full GPIO write trace of `writeparallel` on the byte list `data`,
entered with caller masks `cl0`/`se0` and function-select snapshot `b`:
direction commit to output, mask commit, the per-byte phases, and the
final direction restore to input. -/
def writeparallelEvs (c : ChipData) (data : List Nat) (cl0 se0 : Nat)
    (b : Buf3) : List Ev :=
  [Ev.fsel 0 (writeOutBuf c b).w0, Ev.fsel 1 (writeOutBuf c b).w1,
   Ev.fsel 2 (writeOutBuf c b).w2, Ev.clr cl0, Ev.set se0] ++
  (data.map (writeByteEvs c)).flatten ++
  [Ev.fsel 0 (writeFinalBuf c b).w0, Ev.fsel 1 (writeFinalBuf c b).w1,
   Ev.fsel 2 (writeFinalBuf c b).w2]

/-- An event is an active strobe edge on `enwr`: for 6800 a set-word write
containing the `enwr` bit (rising edge), for 8080 a clear-word write
containing it (falling edge). -/
def isActiveStrobe (c : ChipData) : Ev → Bool
  | Ev.set m => c.protocol == 6800 && m.testBit c.enwr
  | Ev.clr m => c.protocol == 8080 && m.testBit c.enwr
  | _ => false

/-- Number of active strobe edges in a trace. -/
def activeStrobeCount (c : ChipData) (tr : List Ev) : Nat :=
  tr.countP (isActiveStrobe c)

/-- Resulting level of pin `p` after a clear-word/set-word commit pair
(clear written first, set written last), starting from level `prev`. -/
def levelAfter (prev : Bool) (cl se p : Nat) : Bool :=
  if se.testBit p then true else if cl.testBit p then false else prev

/-! ### `readparallel` -/

/-- One step of the sampling loop of `readparallel` (lines 234-238):
shift the accumulator left (as `unsigned char`) and OR in the sampled bit
of pin `p`. -/
def readStep (r p v : Nat) : Nat :=
  if 0 < r &&& (1 <<< p) then ((v <<< 1) % 256) ||| 1 else (v <<< 1) % 256

/-- The sampling loop over `pins[0] .. pins[bpc-1]` for one phase, on the
level-register reading `r`. -/
def readPhaseVal (c : ChipData) (r v : Nat) : Nat :=
  (List.range (bpc c)).foldl (fun v k => readStep r (pins c k) v) v

/-- Byte accumulated by `readparallel` for one byte position, from the
list of level-register readings (one per phase), starting from 0. -/
def readByteVal (c : ChipData) (rs : List Nat) : Nat :=
  rs.foldl (fun v r => readPhaseVal c r v) 0

/-- GPIO accesses of one read phase (lines 224-243): assert the read
strobe (6800: set `enwr`, 8080: clear `rwrd`), sample the level register,
de-assert the strobe. -/
def readPhaseEvs (c : ChipData) : List Ev :=
  (if c.protocol = 6800 then [Ev.set (1 <<< c.enwr)] else []) ++
  (if c.protocol = 8080 then [Ev.clr (1 <<< c.rwrd)] else []) ++
  [Ev.lev] ++
  (if c.protocol = 6800 then [Ev.clr (1 <<< c.enwr)] else []) ++
  (if c.protocol = 8080 then [Ev.set (1 <<< c.rwrd)] else [])

/-- Full GPIO trace of `readparallel` on `n` bytes with caller masks
`cl0`/`se0`: the entry commit (with `rwrd` raised into the set word for
6800), the sampling phases, and the final return to write mode. -/
def readparallelEvs (c : ChipData) (n : Nat) (cl0 se0 : Nat) : List Ev :=
  let se1 := if c.protocol = 6800 then se0 ||| (1 <<< c.rwrd) else se0
  [Ev.clr cl0, Ev.set se1] ++
  (List.replicate (n * (8 / bpc c)) (readPhaseEvs c)).flatten ++
  [Ev.clr (if c.protocol = 6800 then 1 <<< c.rwrd else 0), Ev.set 0]

/-! ### The external wrappers -/

/-- `rscd` masks computed by `writedata` (lines 481-485): data mode. -/
def writedataMasks (c : ChipData) : Nat × Nat :=
  let cl : Nat := 0
  let se : Nat := 0
  let se := if c.protocol = 6800 then se ||| (1 <<< c.rscd) else se
  let cl := if c.protocol = 8080 then cl ||| (1 <<< c.rscd) else cl
  (cl, se)

/-- `rscd` masks computed by `writecommand` (lines 496-500): command mode. -/
def writecommandMasks (c : ChipData) : Nat × Nat :=
  let cl : Nat := 0
  let se : Nat := 0
  let cl := if c.protocol = 6800 then cl ||| (1 <<< c.rscd) else cl
  let se := if c.protocol = 8080 then se ||| (1 <<< c.rscd) else se
  (cl, se)

/-- `rscd` masks computed by `readdata` (lines 442-446): data mode. -/
def readdataMasks (c : ChipData) : Nat × Nat :=
  let cl : Nat := 0
  let se : Nat := 0
  let se := if c.protocol = 6800 then se ||| (1 <<< c.rscd) else se
  let cl := if c.protocol = 8080 then cl ||| (1 <<< c.rscd) else cl
  (cl, se)

/-- `rscd` masks computed by `readregister` (lines 464-468): command mode. -/
def readregisterMasks (c : ChipData) : Nat × Nat :=
  let cl : Nat := 0
  let se : Nat := 0
  let cl := if c.protocol = 6800 then cl ||| (1 <<< c.rscd) else cl
  let se := if c.protocol = 8080 then se ||| (1 <<< c.rscd) else se
  (cl, se)

/-- GPIO trace of `writedata`. -/
def writedataEvs (c : ChipData) (data : List Nat) (b : Buf3) : List Ev :=
  writeparallelEvs c data (writedataMasks c).1 (writedataMasks c).2 b

/-- GPIO trace of `writecommand` (one byte). -/
def writecommandEvs (c : ChipData) (datacom : Nat) (b : Buf3) : List Ev :=
  writeparallelEvs c [datacom] (writecommandMasks c).1 (writecommandMasks c).2 b

/-- `readdata` (lines 436-451): returns −1 and performs no GPIO access at
all when `rwrd` is `UNDEFINED` (the guard precedes every register
access); otherwise returns 0 with the `readparallel` trace. -/
def readdataRun (c : ChipData) (n : Nat) : Int × List Ev :=
  if c.rwrd = UNDEFINED then (-1, [])
  else (0, readparallelEvs c n (readdataMasks c).1 (readdataMasks c).2)

/-- `readregister` (lines 456-473): returns −1 and performs no GPIO access
when `rwrd` is `UNDEFINED`; otherwise a one-byte read whose value is
built from the supplied level-register readings (one per phase). -/
def readregisterRun (c : ChipData) (readings : List Nat) : Int × List Ev :=
  if c.rwrd = UNDEFINED then (-1, [])
  else ((readByteVal c readings : Nat),
    readparallelEvs c 1 (readregisterMasks c).1 (readregisterMasks c).2)

/-! ### Shift amounts executed by the transfer engine -/

/-- The shift amounts of every `1 << pin` expression evaluated by
`writeparallel`: `1 << enwr` once (line 298), then `1 << pins[k]` for
each `k < bpc` in each of the `n * (8/bpc)` phases (lines 311-312). -/
def writeShifts (c : ChipData) (n : Nat) : List Nat :=
  c.enwr ::
    (List.replicate (n * (8 / bpc c)) ((List.range (bpc c)).map (pins c))).flatten

/-- The shift amounts of every `1 << pin` expression evaluated by
`readparallel`: `1 << rwrd` on entry for 6800 (line 208), the strobe bit
(line 216-217), `1 << pins[k]` per sampled bit (line 237), and `1 << rwrd`
again on exit for 6800 (line 254). -/
def readShifts (c : ChipData) (n : Nat) : List Nat :=
  (if c.protocol = 6800 then [c.rwrd] else []) ++
  (if c.protocol = 6800 then [c.enwr] else []) ++
  (if c.protocol = 8080 then [c.rwrd] else []) ++
  (List.replicate (n * (8 / bpc c)) ((List.range (bpc c)).map (pins c))).flatten ++
  (if c.protocol = 6800 then [c.rwrd] else [])

/-! ### Sample descriptors used in witnesses -/

/-- A concrete 8-bit 6800 descriptor with pairwise distinct pins. -/
def sampleChip8 : ChipData :=
  ⟨26, 19, 13, 6, 5, 11, 9, 10, 21, 20, 16, 6800, 60, 300, 300, 10000, 10⟩

/-- A concrete 4-bit write-only 8080 descriptor (`d3..d0` and `rwrd`
`UNDEFINED`). -/
def sampleChip4 : ChipData :=
  ⟨26, 19, 13, 6, UNDEFINED, UNDEFINED, UNDEFINED, UNDEFINED,
   21, 20, UNDEFINED, 8080, 60, 300, 300, 10000, 10⟩

/-! ## Helper lemmas on the timing gate -/

/-- In nanosecond value, `SET()` always advances the cursor by exactly
`timing`, normalised or not. -/
theorem toNs_SETtime (t : Timespec) (d : Nat) : toNs (SETtime t d) = toNs t + d := by
  unfold SETtime toNs
  split
  · dsimp; omega
  · dsimp; omega

theorem toNs_SETupd (st : TimingState) :
    toNs (SETupd st).ttime = toNs st.ttime + st.timing :=
  toNs_SETtime st.ttime st.timing

theorem WAITupd_timing (st : TimingState) (e : Timespec) :
    (WAITupd st e).timing = st.timing := by
  unfold WAITupd; split <;> rfl

/-- `WAIT()` never moves the cursor backwards. -/
theorem toNs_WAITupd_ge (st : TimingState) (e : Timespec) :
    toNs st.ttime ≤ toNs (WAITupd st e).ttime := by
  unfold WAITupd; split
  · dsimp; omega
  · exact le_refl _

/-- The busy-wait target equals the (possibly stretched) cursor plus the
pending delay. -/
theorem WAITtarget_eq (st : TimingState) (e : Timespec) :
    WAITtarget st e = toNs (WAITupd st e).ttime + st.timing := by
  unfold WAITtarget WAITupd; split <;> rfl

/-- A `WAIT(); ...; SET()` pair never moves the cursor backwards. -/
theorem toNs_SW_ge (st : TimingState) (e : Timespec) :
    toNs st.ttime ≤ toNs (SETupd (WAITupd st e)).ttime := by
  rw [toNs_SETupd]
  have := toNs_WAITupd_ge st e
  omega

theorem toNs_phaseTiming_ge (c : ChipData) (l : Bool) (st : TimingState)
    (e1 e2 : Timespec) : toNs st.ttime ≤ toNs (phaseTiming c l st e1 e2).ttime := by
  unfold phaseTiming
  have h1 := toNs_SW_ge st e1
  have h2 := toNs_SW_ge { SETupd (WAITupd st e1) with timing := c.tclock } e2
  have h2' : toNs (SETupd (WAITupd st e1)).ttime ≤
      toNs (SETupd (WAITupd { SETupd (WAITupd st e1) with timing := c.tclock } e2)).ttime := h2
  exact le_trans h1 h2'

theorem toNs_jloopTiming_ge (c : ChipData) (j : Nat) (st : TimingState)
    (o : List Timespec) : toNs st.ttime ≤ toNs (jloopTiming c j st o).1.ttime := by
  induction j generalizing st o with
  | zero => exact le_refl _
  | succ j ih => exact le_trans (toNs_phaseTiming_ge _ _ _ _ _) (ih _ _)

theorem toNs_bytesTiming_ge (c : ChipData) (n : Nat) (st : TimingState)
    (o : List Timespec) : toNs st.ttime ≤ toNs (bytesTiming c n st o).1.ttime := by
  induction n generalizing st o with
  | zero => exact le_refl _
  | succ n ih => exact le_trans (toNs_jloopTiming_ge _ _ _ _) (ih _ _)

theorem toNs_writeparallelTiming_ge (c : ChipData) (n : Nat) (st : TimingState)
    (o : List Timespec) : toNs st.ttime ≤ toNs (writeparallelTiming c n st o).ttime := by
  unfold writeparallelTiming
  have h1 := toNs_SW_ge st (o.headD ⟨0, 0⟩)
  have h2 := toNs_bytesTiming_ge c n
    { SETupd (WAITupd st (o.headD ⟨0, 0⟩)) with timing := c.tsetup } (o.drop 1)
  have h2' : toNs (SETupd (WAITupd st (o.headD ⟨0, 0⟩))).ttime ≤
      toNs (bytesTiming c n
        { SETupd (WAITupd st (o.headD ⟨0, 0⟩)) with timing := c.tsetup }
        (o.drop 1)).1.ttime := h2
  exact le_trans h1 h2'

theorem eight_div_bpc_pos (c : ChipData) : 1 ≤ 8 / bpc c := by
  unfold bpc; split <;> decide

/-- After a `j`-loop of at least one phase, the pending delay is `tproc`. -/
theorem jloopTiming_timing (c : ChipData) (j : Nat) (st : TimingState)
    (o : List Timespec) (h : 1 ≤ j) : (jloopTiming c j st o).1.timing = c.tproc := by
  induction j generalizing st o with
  | zero => omega
  | succ j ih =>
    cases j with
    | zero => simp [jloopTiming, phaseTiming]
    | succ j' =>
      rw [jloopTiming]
      exact ih _ _ (Nat.succ_le_succ (Nat.zero_le _))

/-- After a byte loop of at least one byte, the pending delay is `tproc`. -/
theorem bytesTiming_timing (c : ChipData) (n : Nat) (st : TimingState)
    (o : List Timespec) (h : 1 ≤ n) : (bytesTiming c n st o).1.timing = c.tproc := by
  induction n generalizing st o with
  | zero => omega
  | succ n ih =>
    cases n with
    | zero =>
      rw [bytesTiming]
      exact jloopTiming_timing c _ _ _ (eight_div_bpc_pos c)
    | succ n' =>
      rw [bytesTiming]
      exact ih _ _ (Nat.succ_le_succ (Nat.zero_le _))

theorem writeparallelTiming_timing (c : ChipData) (n : Nat) (st : TimingState)
    (o : List Timespec) (h : 1 ≤ n) : (writeparallelTiming c n st o).timing = c.tproc := by
  unfold writeparallelTiming
  exact bytesTiming_timing c n _ _ h

/-! ## Claim theorems: timing gate and descriptor construction -/

/-- Claim C1, counterexample.  The timing state is not per-descriptor: it
is the process-global pair `(ttime, timing)` shared by every descriptor,
and `initialise` overwrites it.  Concretely, with the shared state at
cursor `(5 s, 0 ns)` and pending delay 300 (descriptor A's scheduling
state), constructing a second descriptor at monotonic time `(7 s, 0 ns)`
changes both components of the state A's next transfer will use. -/
theorem claim_c1_counterexample :
    (initialiseTiming ⟨7, 0⟩).ttime ≠ (⟨⟨5, 0⟩, 300⟩ : TimingState).ttime ∧
    (initialiseTiming ⟨7, 0⟩).timing ≠ (⟨⟨5, 0⟩, 300⟩ : TimingState).timing := by
  decide

/-- Claim C1, amended.  The timing state is a single process-global
cursor, reset by `initialise` and advanced by the transfer engine.  For
two consecutive `writecommand` calls on one descriptor (no intervening
operation): the cursor advances monotonically; after the first call the
pending delay is `tproc` and the cursor is the scheduled time of its final
strobe edge; and any clock reading at which the second call's first
`WAIT()` can return — hence the moment of its first register write — is at
least that cursor plus `tproc`. -/
theorem claim_c1_amended (c : ChipData) (st : TimingState) (o1 : List Timespec)
    (e r : Timespec) :
    toNs st.ttime ≤ toNs (writecommandTiming c st o1).ttime ∧
    (writecommandTiming c st o1).timing = c.tproc ∧
    (WAITreturns (writecommandTiming c st o1) e r →
      toNs (writecommandTiming c st o1).ttime + c.tproc ≤ toNs r) := by
  refine ⟨toNs_writeparallelTiming_ge c 1 st o1,
    writeparallelTiming_timing c 1 st o1 (le_refl 1), ?_⟩
  intro h
  unfold WAITreturns at h
  rw [WAITtarget_eq] at h
  have h1 := toNs_WAITupd_ge (writecommandTiming c st o1) e
  have h2 := writeparallelTiming_timing c 1 st o1 (le_refl 1)
  unfold writecommandTiming at *
  omega

/-- Witness for the amended claim C1 at a concrete descriptor, initial
state, oracle and return reading. -/
theorem claim_c1_amended_witness :
    WAITreturns (writecommandTiming sampleChip8 ⟨⟨0, 0⟩, 0⟩ []) ⟨0, 0⟩ ⟨100, 0⟩ ∧
    (toNs (⟨⟨0, 0⟩, 0⟩ : TimingState).ttime ≤
        toNs (writecommandTiming sampleChip8 ⟨⟨0, 0⟩, 0⟩ []).ttime ∧
      (writecommandTiming sampleChip8 ⟨⟨0, 0⟩, 0⟩ []).timing = sampleChip8.tproc ∧
      toNs (writecommandTiming sampleChip8 ⟨⟨0, 0⟩, 0⟩ []).ttime +
          sampleChip8.tproc ≤ toNs ⟨100, 0⟩) := by
  have h := claim_c1_amended sampleChip8 ⟨⟨0, 0⟩, 0⟩ [] ⟨0, 0⟩ ⟨100, 0⟩
  have hr : WAITreturns (writecommandTiming sampleChip8 ⟨⟨0, 0⟩, 0⟩ []) ⟨0, 0⟩ ⟨100, 0⟩ := by
    unfold WAITreturns WAITtarget
    decide
  exact ⟨hr, h.1, h.2.1, h.2.2 hr⟩

/-- Claim C4.  `WAIT()` busy-waits until the monotonic clock reaches
`cursor + pending_delay`: the loop target always equals the (possibly
stretched) cursor plus the pending delay; when the entry reading has
already reached the old target the cursor is re-set to that reading and
the target re-armed; the cursor never lags the entry reading by more than
one pending delay; and every clock reading at which the loop can return is
at least `cursor + pending_delay`. -/
theorem claim_c4_wait (st : TimingState) (e : Timespec) :
    WAITtarget st e = toNs (WAITupd st e).ttime + (WAITupd st e).timing ∧
    (toNs st.ttime + st.timing ≤ toNs e →
      (WAITupd st e).ttime = e ∧ WAITtarget st e = toNs e + st.timing) ∧
    toNs e ≤ WAITtarget st e ∧
    (∀ r : Timespec, WAITreturns st e r →
      toNs (WAITupd st e).ttime + (WAITupd st e).timing ≤ toNs r) := by
  refine ⟨?_, ?_, ?_, ?_⟩
  · rw [WAITtarget_eq, WAITupd_timing]
  · intro h
    constructor
    · unfold WAITupd; rw [if_pos h]
    · unfold WAITtarget; rw [if_pos h]
  · unfold WAITtarget; split
    · omega
    · omega
  · intro r hr
    unfold WAITreturns at hr
    rw [WAITtarget_eq] at hr
    rw [WAITupd_timing]
    exact hr

/-- Witness for claim C4: an overshot entry (cursor `(5 s, 0)`, delay 300,
entry reading `(10 s, 0)`) re-arms to the entry reading plus the delay. -/
theorem claim_c4_wait_witness :
    toNs (⟨⟨5, 0⟩, 300⟩ : TimingState).ttime + (⟨⟨5, 0⟩, 300⟩ : TimingState).timing ≤
        toNs ⟨10, 0⟩ ∧
      ((WAITupd ⟨⟨5, 0⟩, 300⟩ ⟨10, 0⟩).ttime = ⟨10, 0⟩ ∧
        WAITtarget ⟨⟨5, 0⟩, 300⟩ ⟨10, 0⟩ = toNs ⟨10, 0⟩ + 300) :=
  ⟨by decide, (claim_c4_wait ⟨⟨5, 0⟩, 300⟩ ⟨10, 0⟩).2.1 (by decide)⟩

/-- Claim C5, counterexample.  `SET()` subtracts `10^9` from `tv_nsec` at
most once, so a pending delay of `2·10^9` ns (admissible for a `uint32_t`)
applied to the normalised cursor `(0, 0)` leaves `tv_nsec = 10^9`, which
is not normalised. -/
theorem claim_c5_counterexample :
    ¬ (SETtime ⟨0, 0⟩ 2000000000).tv_nsec < 1000000000 := by decide

/-- Claim C5, amended.  For a normalised cursor and a pending delay with
`tv_nsec + delay < 2·10^9` (in particular any delay below `10^9`, which
covers every delay the engine programs from the five timing parameters
when they are below one second), `SET()` yields a normalised timespec
whose nanosecond value is exactly the old cursor plus the delay; the value
equation holds for every delay. -/
theorem claim_c5_amended (t : Timespec) (d : Nat)
    (_h1 : t.tv_nsec < 1000000000) (h2 : t.tv_nsec + d < 2000000000) :
    toNs (SETtime t d) = toNs t + d ∧ (SETtime t d).tv_nsec < 1000000000 := by
  refine ⟨toNs_SETtime t d, ?_⟩
  unfold SETtime
  split
  · dsimp; omega
  · dsimp; omega

/-- Witness for the amended claim C5 at the cursor `(3 s, 999999999 ns)`
and delay 300. -/
theorem claim_c5_amended_witness :
    ((999999999 : Nat) < 1000000000 ∧ (999999999 : Nat) + 300 < 2000000000) ∧
    (toNs (SETtime ⟨3, 999999999⟩ 300) = toNs ⟨3, 999999999⟩ + 300 ∧
      (SETtime ⟨3, 999999999⟩ 300).tv_nsec < 1000000000) :=
  ⟨⟨by decide, by decide⟩,
    claim_c5_amended ⟨3, 999999999⟩ 300 (by decide) (by decide)⟩

/-- Claim C6.  `initialise` stores each of `d3, d2, d1, d0, rwrd` as
`UNDEFINED` exactly when the supplied value is outside `[0, 27]`, stores
them as given when inside, and stores `d7, d6, d5, d4, rscd, enwr` through
the plain unsigned cast with no range validation. -/
theorem claim_c6_initialise (d7 d6 d5 d4 d3 d2 d1 d0 rscd enwr rwrd protocol
    tsetup tclock tread tproc thold : Int) :
    ((initialiseData d7 d6 d5 d4 d3 d2 d1 d0 rscd enwr rwrd protocol
        tsetup tclock tread tproc thold).d3 = UNDEFINED ↔ d3 > 27 ∨ d3 < 0) ∧
    (0 ≤ d3 → d3 ≤ 27 → (initialiseData d7 d6 d5 d4 d3 d2 d1 d0 rscd enwr rwrd protocol
        tsetup tclock tread tproc thold).d3 = d3.toNat) ∧
    ((initialiseData d7 d6 d5 d4 d3 d2 d1 d0 rscd enwr rwrd protocol
        tsetup tclock tread tproc thold).d2 = UNDEFINED ↔ d2 > 27 ∨ d2 < 0) ∧
    (0 ≤ d2 → d2 ≤ 27 → (initialiseData d7 d6 d5 d4 d3 d2 d1 d0 rscd enwr rwrd protocol
        tsetup tclock tread tproc thold).d2 = d2.toNat) ∧
    ((initialiseData d7 d6 d5 d4 d3 d2 d1 d0 rscd enwr rwrd protocol
        tsetup tclock tread tproc thold).d1 = UNDEFINED ↔ d1 > 27 ∨ d1 < 0) ∧
    (0 ≤ d1 → d1 ≤ 27 → (initialiseData d7 d6 d5 d4 d3 d2 d1 d0 rscd enwr rwrd protocol
        tsetup tclock tread tproc thold).d1 = d1.toNat) ∧
    ((initialiseData d7 d6 d5 d4 d3 d2 d1 d0 rscd enwr rwrd protocol
        tsetup tclock tread tproc thold).d0 = UNDEFINED ↔ d0 > 27 ∨ d0 < 0) ∧
    (0 ≤ d0 → d0 ≤ 27 → (initialiseData d7 d6 d5 d4 d3 d2 d1 d0 rscd enwr rwrd protocol
        tsetup tclock tread tproc thold).d0 = d0.toNat) ∧
    ((initialiseData d7 d6 d5 d4 d3 d2 d1 d0 rscd enwr rwrd protocol
        tsetup tclock tread tproc thold).rwrd = UNDEFINED ↔ rwrd > 27 ∨ rwrd < 0) ∧
    (0 ≤ rwrd → rwrd ≤ 27 → (initialiseData d7 d6 d5 d4 d3 d2 d1 d0 rscd enwr rwrd protocol
        tsetup tclock tread tproc thold).rwrd = rwrd.toNat) ∧
    (initialiseData d7 d6 d5 d4 d3 d2 d1 d0 rscd enwr rwrd protocol
        tsetup tclock tread tproc thold).d7 = toU32 d7 ∧
    (initialiseData d7 d6 d5 d4 d3 d2 d1 d0 rscd enwr rwrd protocol
        tsetup tclock tread tproc thold).d6 = toU32 d6 ∧
    (initialiseData d7 d6 d5 d4 d3 d2 d1 d0 rscd enwr rwrd protocol
        tsetup tclock tread tproc thold).d5 = toU32 d5 ∧
    (initialiseData d7 d6 d5 d4 d3 d2 d1 d0 rscd enwr rwrd protocol
        tsetup tclock tread tproc thold).d4 = toU32 d4 ∧
    (initialiseData d7 d6 d5 d4 d3 d2 d1 d0 rscd enwr rwrd protocol
        tsetup tclock tread tproc thold).rscd = toU32 rscd ∧
    (initialiseData d7 d6 d5 d4 d3 d2 d1 d0 rscd enwr rwrd protocol
        tsetup tclock tread tproc thold).enwr = toU32 enwr := by
  unfold initialiseData toU32 UNDEFINED
  dsimp only
  split_ifs <;> omega

/-- Witness for claim C6 at the boundaries: `d3 = 27` is accepted, `d2 =
28` and `d1 = -1` become `UNDEFINED`. -/
theorem claim_c6_initialise_witness :
    ((0 : Int) ≤ 27 ∧ (27 : Int) ≤ 27 ∧
      (initialiseData 1 2 3 4 27 28 (-1) 5 6 7 28 6800 60 300 300 10000
        10).d3 = (27 : Int).toNat) ∧
    ((initialiseData 1 2 3 4 27 28 (-1) 5 6 7 28 6800 60 300 300 10000
        10).d2 = UNDEFINED ↔ (28 : Int) > 27 ∨ (28 : Int) < 0) := by
  have h := claim_c6_initialise 1 2 3 4 27 28 (-1) 5 6 7 28 6800 60 300 300 10000 10
  exact ⟨⟨by decide, by decide, h.2.1 (by decide) (by decide)⟩, h.2.2.1⟩

/-! ## Claim theorems: error handling and mode selection -/

/-- Claim C2.  On a write-only descriptor (`rwrd = UNDEFINED`) both
`readdata` and `readregister` return −1 and perform no GPIO register
access at all (the guard precedes every register access, so no pin level
or direction is touched): the event trace is empty. -/
theorem claim_c2_readonly_guard (c : ChipData) (n : Nat) (readings : List Nat)
    (h : c.rwrd = UNDEFINED) :
    readdataRun c n = (-1, []) ∧ readregisterRun c readings = (-1, []) := by
  unfold readdataRun readregisterRun
  rw [if_pos h, if_pos h]
  exact ⟨rfl, rfl⟩

/-- Witness for claim C2 on the concrete write-only descriptor. -/
theorem claim_c2_readonly_guard_witness :
    sampleChip4.rwrd = UNDEFINED ∧
    readdataRun sampleChip4 3 = (-1, []) ∧
    readregisterRun sampleChip4 [0] = (-1, []) :=
  ⟨by decide, claim_c2_readonly_guard sampleChip4 3 [0] (by decide)⟩

/-- Claim C8.  The `rscd` level selected by the four transfer wrappers:
6800 drives `rscd` high for data transfers and low for commands, 8080
drives it low for data transfers and high for commands (the level after
the clear/set commit of the wrapper masks). -/
theorem claim_c8_rscd_levels (c : ChipData) (prev : Bool) :
    (c.protocol = 6800 →
      levelAfter prev (writedataMasks c).1 (writedataMasks c).2 c.rscd = true ∧
      levelAfter prev (readdataMasks c).1 (readdataMasks c).2 c.rscd = true ∧
      levelAfter prev (writecommandMasks c).1 (writecommandMasks c).2 c.rscd = false ∧
      levelAfter prev (readregisterMasks c).1 (readregisterMasks c).2 c.rscd = false) ∧
    (c.protocol = 8080 →
      levelAfter prev (writedataMasks c).1 (writedataMasks c).2 c.rscd = false ∧
      levelAfter prev (readdataMasks c).1 (readdataMasks c).2 c.rscd = false ∧
      levelAfter prev (writecommandMasks c).1 (writecommandMasks c).2 c.rscd = true ∧
      levelAfter prev (readregisterMasks c).1 (readregisterMasks c).2 c.rscd = true) := by
  constructor <;> intro h <;>
    simp [writedataMasks, readdataMasks, writecommandMasks, readregisterMasks,
      levelAfter, h, Nat.one_shiftLeft, Nat.testBit_two_pow, Nat.zero_testBit]

/-- Witness for claim C8 on the concrete 6800 descriptor. -/
theorem claim_c8_rscd_levels_witness :
    sampleChip8.protocol = 6800 ∧
    levelAfter false (writedataMasks sampleChip8).1 (writedataMasks sampleChip8).2
      sampleChip8.rscd = true ∧
    levelAfter false (writecommandMasks sampleChip8).1 (writecommandMasks sampleChip8).2
      sampleChip8.rscd = false := by
  have h := (claim_c8_rscd_levels sampleChip8 false).1 (by decide)
  exact ⟨by decide, h.1, h.2.2.1⟩

/-! ## Claim theorems: shift-amount safety -/

theorem mem_ite_singleton {s x : Nat} {b : Prop} [Decidable b]
    (h : s ∈ if b then [x] else ([] : List Nat)) : s = x := by
  split at h
  · simpa using h
  · simp at h

/-- Membership in the per-phase pin-shift block implies being one of
`pins[0] .. pins[bpc-1]`. -/
theorem mem_phasePins (c : ChipData) (m s : Nat)
    (h : s ∈ (List.replicate m ((List.range (bpc c)).map (pins c))).flatten) :
    ∃ i, i < bpc c ∧ s = pins c i := by
  simp only [List.mem_flatten, List.mem_replicate, List.mem_map,
    List.mem_range] at h
  obtain ⟨l, ⟨-, rfl⟩, hl⟩ := h
  simp only [List.mem_map, List.mem_range] at hl
  obtain ⟨i, hi, rfl⟩ := hl
  exact ⟨i, hi, rfl⟩

/-- Under the descriptor invariant, every pin indexed by the transfer
loops (`pins[0] .. pins[bpc-1]`) is at most 27. -/
theorem pins_le_of_inv (c : ChipData) (hinv : descInvariant c) :
    ∀ i, i < bpc c → pins c i ≤ 27 := by
  obtain ⟨h7, h6, h5, h4, hrs, hen, hrw, hlo, hhi⟩ := hinv
  intro i hi
  unfold bpc at hi
  by_cases hd : c.d0 = UNDEFINED
  · rw [if_pos hd] at hi
    interval_cases i <;> simp only [pins] <;> assumption
  · rw [if_neg hd] at hi
    obtain ⟨g3, g2, g1, g0⟩ := hhi hd
    interval_cases i <;> simp only [pins] <;> assumption

/-- Claim C10.  For a descriptor satisfying the invariant, every shift
amount of a `1 << pin` expression executed by `writeparallel` is at most
27, and likewise for `readparallel` when `rwrd` is defined (the only way
the engine reaches it): the loops index only `pins[0..bpc-1]`, so the
`UNDEFINED` sentinel is never a shift amount and no shift reaches the
32-bit width. -/
theorem claim_c10_shift_bounds (c : ChipData) (n : Nat) (hinv : descInvariant c) :
    (∀ s ∈ writeShifts c n, s ≤ 27) ∧
    (c.rwrd ≠ UNDEFINED → ∀ s ∈ readShifts c n, s ≤ 27) := by
  have hen : c.enwr ≤ 27 := hinv.2.2.2.2.2.1
  constructor
  · intro s hs
    unfold writeShifts at hs
    rcases List.mem_cons.mp hs with rfl | hs'
    · exact hen
    · obtain ⟨i, hi, rfl⟩ := mem_phasePins c _ s hs'
      exact pins_le_of_inv c hinv i hi
  · intro hrw s hs
    have hr27 : c.rwrd ≤ 27 := by
      rcases hinv.2.2.2.2.2.2.1 with h | h
      · exact absurd h hrw
      · exact h
    unfold readShifts at hs
    simp only [List.mem_append] at hs
    rcases hs with ((((h1 | h2) | h3) | h4) | h5)
    · rw [mem_ite_singleton h1]; exact hr27
    · rw [mem_ite_singleton h2]; exact hen
    · rw [mem_ite_singleton h3]; exact hr27
    · obtain ⟨i, hi, rfl⟩ := mem_phasePins c _ s h4
      exact pins_le_of_inv c hinv i hi
    · rw [mem_ite_singleton h5]; exact hr27

/-- Witness for claim C10 on the concrete 8-bit descriptor. -/
theorem claim_c10_shift_bounds_witness :
    descInvariant sampleChip8 ∧
    (∀ s ∈ writeShifts sampleChip8 2, s ≤ 27) ∧
    (∀ s ∈ readShifts sampleChip8 2, s ≤ 27) := by
  have h := claim_c10_shift_bounds sampleChip8 2 (by decide)
  exact ⟨by decide, h.1, h.2 (by decide)⟩

/-! ## Bit-level helper lemmas for the mask computations -/

theorem testBit_one_shiftLeft (p j : Nat) : (1 <<< p).testBit j = decide (p = j) := by
  rw [Nat.one_shiftLeft, Nat.testBit_two_pow]

theorem and_128_pos (d : Nat) : 0 < d &&& 128 ↔ d.testBit 7 = true := by
  have h : (128 : Nat) = 2 ^ 7 := by norm_num
  rw [h, Nat.and_two_pow]
  cases hb : d.testBit 7 <;> simp

theorem lor_one_of_even (n : Nat) (h : n % 2 = 0) : n ||| 1 = n + 1 := by
  apply Nat.eq_of_testBit_eq
  intro i
  cases i with
  | zero =>
    rw [Nat.testBit_lor, Nat.testBit_zero, Nat.testBit_zero, Nat.testBit_zero]
    have h1 : (n + 1) % 2 = 1 := by omega
    simp [h, h1]
  | succ i =>
    rw [Nat.testBit_lor, Nat.testBit_succ, Nat.testBit_succ, Nat.testBit_succ]
    have h2 : (1 : Nat) / 2 = 0 := rfl
    rw [h2, Nat.zero_testBit, Bool.or_false]
    congr 1
    omega

/-- `dataLoop` peeled at the top: step `n` applied to the first `n` steps. -/
theorem dataLoop_succ (c : ChipData) (n : Nat) (st : Nat × Nat × Nat) :
    dataLoop c (n + 1) st = dataStep c n (dataLoop c n st) := by
  unfold dataLoop
  rw [List.range_succ, List.foldl_append]
  rfl

theorem dataStep_datum (c : ChipData) (k : Nat) (st : Nat × Nat × Nat) :
    (dataStep c k st).2.2 = (st.2.2 <<< 1) % 256 := by
  unfold dataStep
  split <;> rfl

theorem dataStep_of_ne (c : ChipData) (k : Nat) (st : Nat × Nat × Nat) (j : Nat)
    (h : pins c k ≠ j) :
    (dataStep c k st).1.testBit j = st.1.testBit j ∧
    (dataStep c k st).2.1.testBit j = st.2.1.testBit j := by
  unfold dataStep
  split
  · exact ⟨rfl, by rw [Nat.testBit_lor, testBit_one_shiftLeft]; simp [h]⟩
  · exact ⟨by rw [Nat.testBit_lor, testBit_one_shiftLeft]; simp [h], rfl⟩

theorem dataStep_at_pin (c : ChipData) (k : Nat) (st : Nat × Nat × Nat) :
    (dataStep c k st).2.1.testBit (pins c k) =
      (st.2.1.testBit (pins c k) || st.2.2.testBit 7) ∧
    (dataStep c k st).1.testBit (pins c k) =
      (st.1.testBit (pins c k) || !st.2.2.testBit 7) := by
  unfold dataStep
  split
  case isTrue h =>
    have hb : st.2.2.testBit 7 = true := (and_128_pos st.2.2).mp h
    constructor
    · rw [Nat.testBit_lor, testBit_one_shiftLeft]
      simp [hb]
    · simp [hb]
  case isFalse h =>
    have hb : st.2.2.testBit 7 = false := by
      cases hb : st.2.2.testBit 7
      · rfl
      · exact absurd ((and_128_pos st.2.2).mpr hb) h
    constructor
    · simp [hb]
    · rw [Nat.testBit_lor, testBit_one_shiftLeft]
      simp [hb]

/-- Datum tracking through the data-bit loop: `n` left shifts mod 256. -/
theorem dataLoop_datum (c : ChipData) (n : Nat) (cl se d : Nat) (hd : d < 256) :
    (dataLoop c n (cl, se, d)).2.2 = (d <<< n) % 256 := by
  induction n with
  | zero =>
    rw [Nat.shiftLeft_zero, Nat.mod_eq_of_lt hd]
    rfl
  | succ n ih =>
    rw [dataLoop_succ, dataStep_datum, ih]
    rw [Nat.shiftLeft_eq, Nat.shiftLeft_eq, Nat.shiftLeft_eq, Nat.mod_mul_mod,
      pow_one, pow_succ, Nat.mul_assoc]

/-- The data-bit loop leaves every bit position that is not one of the
looped pins unchanged in both masks. -/
theorem dataLoop_of_ne (c : ChipData) (n : Nat) (cl se d j : Nat)
    (h : ∀ k, k < n → pins c k ≠ j) :
    (dataLoop c n (cl, se, d)).1.testBit j = cl.testBit j ∧
    (dataLoop c n (cl, se, d)).2.1.testBit j = se.testBit j := by
  induction n with
  | zero => exact ⟨rfl, rfl⟩
  | succ n ih =>
    rw [dataLoop_succ]
    have hs := dataStep_of_ne c n (dataLoop c n (cl, se, d)) j (h n (Nat.lt_succ_self n))
    have ihn := ih (fun k hk => h k (Nat.lt_succ_of_lt hk))
    exact ⟨hs.1.trans ihn.1, hs.2.trans ihn.2⟩

/-- At a looped pin `pins i`, the data-bit loop records bit `7 - i` of the
datum in the set mask and its negation in the clear mask (MSB first). -/
theorem dataLoop_at_pin (c : ChipData) (n : Nat) (cl se d : Nat) (i : Nat)
    (hi : i < n) (hn : n ≤ 8) (hd : d < 256)
    (hinj : ∀ k l, k < n → l < n → pins c k = pins c l → k = l)
    (hcl : cl.testBit (pins c i) = false) (hse : se.testBit (pins c i) = false) :
    (dataLoop c n (cl, se, d)).2.1.testBit (pins c i) = d.testBit (7 - i) ∧
    (dataLoop c n (cl, se, d)).1.testBit (pins c i) = !d.testBit (7 - i) := by
  induction n with
  | zero => omega
  | succ n ih =>
    rw [dataLoop_succ]
    by_cases hin : i < n
    · have hne : pins c n ≠ pins c i := fun hpe => by
        have := hinj n i (Nat.lt_succ_self n) (Nat.lt_succ_of_lt hin) hpe
        omega
      have hs := dataStep_of_ne c n (dataLoop c n (cl, se, d)) (pins c i) hne
      have ihn := ih hin (by omega)
        (fun k l hk hl => hinj k l (by omega) (by omega))
      exact ⟨hs.2.trans ihn.1, hs.1.trans ihn.2⟩
    · have hieq : i = n := by omega
      subst hieq
      have hnm : ∀ k, k < i → pins c k ≠ pins c i := fun k hk hpe => by
        have := hinj k i (by omega) (by omega) hpe
        omega
      have hpre := dataLoop_of_ne c i cl se d (pins c i) hnm
      have hdat := dataLoop_datum c i cl se d hd
      have hs := dataStep_at_pin c i (dataLoop c i (cl, se, d))
      have hbit : ((d <<< i) % 256).testBit 7 = d.testBit (7 - i) := by
        rw [show (256 : Nat) = 2 ^ 8 by norm_num, Nat.testBit_mod_two_pow,
          Nat.testBit_shiftLeft]
        have h7 : i ≤ 7 := by omega
        simp [h7]
      constructor
      · rw [hs.1, hpre.2, hse, Bool.false_or, hdat, hbit]
      · rw [hs.2, hpre.1, hcl, Bool.false_or, hdat, hbit]

theorem bpc_le_eight (c : ChipData) : bpc c ≤ 8 := by
  unfold bpc; split <;> decide

/-- The strobe bit of the phase masks: `enwr` is in the set mask exactly
for 6800 and in the clear mask exactly for 8080 (given that no data pin
collides with `enwr`). -/
theorem phaseMasks_enwr (c : ChipData) (datum : Nat)
    (hen : ∀ k, k < bpc c → pins c k ≠ c.enwr) :
    (phaseMasks c datum).2.1.testBit c.enwr = decide (c.protocol = 6800) ∧
    (phaseMasks c datum).1.testBit c.enwr = decide (c.protocol = 8080) := by
  unfold phaseMasks
  have h := dataLoop_of_ne c (bpc c)
    (if c.protocol = 8080 then 1 <<< c.enwr else 0)
    (if c.protocol = 6800 then 1 <<< c.enwr else 0) datum c.enwr hen
  constructor
  · rw [h.2]
    split
    case isTrue hp => rw [testBit_one_shiftLeft]; simp [hp]
    case isFalse hp => rw [Nat.zero_testBit]; simp [hp]
  · rw [h.1]
    split
    case isTrue hp => rw [testBit_one_shiftLeft]; simp [hp]
    case isFalse hp => rw [Nat.zero_testBit]; simp [hp]

/-- The data bits of the phase masks: at pin `pins i` the set mask holds
bit `7 - i` of the datum and the clear mask its negation. -/
theorem phaseMasks_data_bits (c : ChipData) (datum : Nat) (hd : datum < 256)
    (i : Nat) (hi : i < bpc c)
    (hinj : ∀ k l, k < bpc c → l < bpc c → pins c k = pins c l → k = l)
    (hen : ∀ k, k < bpc c → pins c k ≠ c.enwr) :
    (phaseMasks c datum).2.1.testBit (pins c i) = datum.testBit (7 - i) ∧
    (phaseMasks c datum).1.testBit (pins c i) = !datum.testBit (7 - i) := by
  unfold phaseMasks
  apply dataLoop_at_pin c (bpc c) _ _ datum i hi (bpc_le_eight c) hd hinj
  · split
    case isTrue hp =>
      rw [testBit_one_shiftLeft]
      simp [Ne.symm (hen i hi)]
    case isFalse hp => exact Nat.zero_testBit _
  · split
    case isTrue hp =>
      rw [testBit_one_shiftLeft]
      simp [Ne.symm (hen i hi)]
    case isFalse hp => exact Nat.zero_testBit _

/-! ## Strobe counting for `writeparallel` (claim C3) -/

theorem activeStrobeCount_append (c : ChipData) (l1 l2 : List Ev) :
    activeStrobeCount c (l1 ++ l2) =
      activeStrobeCount c l1 + activeStrobeCount c l2 :=
  List.countP_append _ _ _

/-- Shape of a 6800 write phase: clear word, then the set word carrying
the strobe, then the strobe clear. -/
theorem writePhaseEvs_6800 (c : ChipData) (datum : Nat) (h : c.protocol = 6800) :
    writePhaseEvs c datum =
      [Ev.clr (phaseMasks c datum).1, Ev.set (phaseMasks c datum).2.1,
       Ev.clr (1 <<< c.enwr)] := by
  simp [writePhaseEvs, h]

/-- Shape of an 8080 write phase: set word, then the clear word carrying
the strobe, then the strobe set. -/
theorem writePhaseEvs_8080 (c : ChipData) (datum : Nat) (h : c.protocol = 8080) :
    writePhaseEvs c datum =
      [Ev.set (phaseMasks c datum).2.1, Ev.clr (phaseMasks c datum).1,
       Ev.set (1 <<< c.enwr)] := by
  simp [writePhaseEvs, h]

/-- Each write phase carries exactly one active strobe edge. -/
theorem writePhaseEvs_count (c : ChipData) (datum : Nat)
    (hp : c.protocol = 6800 ∨ c.protocol = 8080)
    (hen : ∀ k, k < bpc c → pins c k ≠ c.enwr) :
    activeStrobeCount c (writePhaseEvs c datum) = 1 := by
  have hb := phaseMasks_enwr c datum hen
  rcases hp with h | h
  · rw [writePhaseEvs_6800 c datum h]
    simp [activeStrobeCount, isActiveStrobe, h, hb.1, hb.2]
  · rw [writePhaseEvs_8080 c datum h]
    simp [activeStrobeCount, isActiveStrobe, h, hb.1, hb.2]

theorem writeJEvs_count (c : ChipData) (j : Nat) (datum : Nat)
    (hp : c.protocol = 6800 ∨ c.protocol = 8080)
    (hen : ∀ k, k < bpc c → pins c k ≠ c.enwr) :
    activeStrobeCount c (writeJEvs c j datum) = j := by
  induction j generalizing datum with
  | zero => rfl
  | succ j ih =>
    rw [writeJEvs, activeStrobeCount_append, writePhaseEvs_count c datum hp hen,
      ih]
    omega

theorem writeByteEvs_count (c : ChipData) (datum : Nat)
    (hp : c.protocol = 6800 ∨ c.protocol = 8080)
    (hen : ∀ k, k < bpc c → pins c k ≠ c.enwr) :
    activeStrobeCount c (writeByteEvs c datum) = 8 / bpc c :=
  writeJEvs_count c (8 / bpc c) datum hp hen

theorem bytes_flatten_count (c : ChipData) (data : List Nat)
    (hp : c.protocol = 6800 ∨ c.protocol = 8080)
    (hen : ∀ k, k < bpc c → pins c k ≠ c.enwr) :
    activeStrobeCount c ((data.map (writeByteEvs c)).flatten) =
      data.length * (8 / bpc c) := by
  induction data with
  | nil => simp [activeStrobeCount]
  | cons d tl ih =>
    rw [List.map_cons, List.flatten_cons, activeStrobeCount_append,
      writeByteEvs_count c d hp hen, ih, List.length_cons, Nat.add_mul,
      Nat.one_mul, Nat.add_comm]

theorem writeparallelEvs_count (c : ChipData) (data : List Nat) (cl0 se0 : Nat)
    (b : Buf3) (hp : c.protocol = 6800 ∨ c.protocol = 8080)
    (hen : ∀ k, k < bpc c → pins c k ≠ c.enwr)
    (hcl0 : cl0.testBit c.enwr = false) (hse0 : se0.testBit c.enwr = false) :
    activeStrobeCount c (writeparallelEvs c data cl0 se0 b) =
      data.length * (8 / bpc c) := by
  unfold writeparallelEvs
  rw [activeStrobeCount_append, activeStrobeCount_append,
    bytes_flatten_count c data hp hen]
  rcases hp with h | h <;>
    simp [activeStrobeCount, isActiveStrobe, h, hcl0, hse0]

/-- Neither mask of the write wrappers contains the `enwr` bit. -/
theorem wrapperMasks_enwr (c : ChipData) (hrs : c.rscd ≠ c.enwr) :
    (writedataMasks c).1.testBit c.enwr = false ∧
    (writedataMasks c).2.testBit c.enwr = false ∧
    (writecommandMasks c).1.testBit c.enwr = false ∧
    (writecommandMasks c).2.testBit c.enwr = false := by
  unfold writedataMasks writecommandMasks
  split_ifs <;> dsimp only <;>
    simp only [Nat.zero_or, testBit_one_shiftLeft, Nat.zero_testBit] <;>
    simp [hrs]

/-- Claim C3.  Every write transfer of `N` bytes emits exactly
`N * (8/bpc)` active strobe edges on `enwr` (through `writedata` and
through `writecommand`), and within each phase the register write that
carries the active `enwr` edge is issued after the data-line write: 6800
emits clear word then set word (with `enwr` in the set word only), 8080
emits set word then clear word (with `enwr` in the clear word only),
followed by the opposite strobe write. -/
theorem claim_c3_strobe (c : ChipData) (data : List Nat) (datum : Nat)
    (b : Buf3)
    (hp : c.protocol = 6800 ∨ c.protocol = 8080)
    (hen : ∀ k, k < bpc c → pins c k ≠ c.enwr)
    (hrs : c.rscd ≠ c.enwr) :
    activeStrobeCount c (writedataEvs c data b) = data.length * (8 / bpc c) ∧
    activeStrobeCount c (writecommandEvs c datum b) = 8 / bpc c ∧
    (∀ d, c.protocol = 6800 →
      writePhaseEvs c d = [Ev.clr (phaseMasks c d).1, Ev.set (phaseMasks c d).2.1,
        Ev.clr (1 <<< c.enwr)] ∧
      (phaseMasks c d).2.1.testBit c.enwr = true ∧
      (phaseMasks c d).1.testBit c.enwr = false) ∧
    (∀ d, c.protocol = 8080 →
      writePhaseEvs c d = [Ev.set (phaseMasks c d).2.1, Ev.clr (phaseMasks c d).1,
        Ev.set (1 <<< c.enwr)] ∧
      (phaseMasks c d).1.testBit c.enwr = true ∧
      (phaseMasks c d).2.1.testBit c.enwr = false) := by
  have hm := wrapperMasks_enwr c hrs
  refine ⟨?_, ?_, ?_, ?_⟩
  · exact writeparallelEvs_count c data _ _ b hp hen hm.1 hm.2.1
  · have h := writeparallelEvs_count c [datum] _ _ b hp hen hm.2.2.1 hm.2.2.2
    simpa using h
  · intro d h
    have hb := phaseMasks_enwr c d hen
    refine ⟨writePhaseEvs_6800 c d h, ?_, ?_⟩
    · rw [hb.1]; simp [h]
    · rw [hb.2]; simp [h]
  · intro d h
    have hb := phaseMasks_enwr c d hen
    refine ⟨writePhaseEvs_8080 c d h, ?_, ?_⟩
    · rw [hb.2]; simp [h]
    · rw [hb.1]; simp [h]

/-- Witness for claim C3 on the concrete 6800 descriptor with a two-byte
transfer. -/
theorem claim_c3_strobe_witness :
    (sampleChip8.protocol = 6800 ∨ sampleChip8.protocol = 8080) ∧
    activeStrobeCount sampleChip8 (writedataEvs sampleChip8 [60, 90] ⟨0, 0, 0⟩) =
      2 * (8 / bpc sampleChip8) ∧
    activeStrobeCount sampleChip8 (writecommandEvs sampleChip8 60 ⟨0, 0, 0⟩) =
      8 / bpc sampleChip8 := by
  have h := claim_c3_strobe sampleChip8 [60, 90] 60 ⟨0, 0, 0⟩
    (Or.inl (by decide)) (by decide) (by decide)
  exact ⟨Or.inl (by decide), h.1, h.2.1⟩

/-! ## 4-bit nibble ordering (claim C7) -/

/-- The sampling step in arithmetic form: double mod 256, plus the sampled
bit. -/
theorem readStep_eq (r p v : Nat) :
    readStep r p v = (v <<< 1) % 256 + (if 0 < r &&& (1 <<< p) then 1 else 0) := by
  have hev : (v <<< 1) % 256 % 2 = 0 := by
    rw [Nat.shiftLeft_eq, pow_one]
    omega
  unfold readStep
  by_cases h : 0 < r &&& (1 <<< p)
  · rw [if_pos h, if_pos h, lor_one_of_even _ hev]
  · rw [if_neg h, if_neg h, Nat.add_zero]

/-- One 4-bit sampling phase: the accumulator is shifted into the high
nibble and the freshly sampled nibble occupies the low bits. -/
theorem readPhaseVal_four (c : ChipData) (hd0 : c.d0 = UNDEFINED) (r v : Nat)
    (hv : v < 16) :
    readPhaseVal c r v = 16 * v + readPhaseVal c r 0 ∧ readPhaseVal c r 0 < 16 := by
  have hbpc : bpc c = 4 := by unfold bpc; rw [if_pos hd0]
  unfold readPhaseVal
  rw [hbpc]
  have hr : List.range 4 = [0, 1, 2, 3] := rfl
  rw [hr]
  simp only [List.foldl_cons, List.foldl_nil]
  have hsl : ∀ x : Nat, x <<< 1 = x * 2 := fun x => by
    rw [Nat.shiftLeft_eq, pow_one]
  simp only [readStep_eq, hsl]
  have hb0 : (if 0 < r &&& (1 <<< pins c 0) then 1 else 0) ≤ 1 := by split <;> omega
  have hb1 : (if 0 < r &&& (1 <<< pins c 1) then 1 else 0) ≤ 1 := by split <;> omega
  have hb2 : (if 0 < r &&& (1 <<< pins c 2) then 1 else 0) ≤ 1 := by split <;> omega
  have hb3 : (if 0 < r &&& (1 <<< pins c 3) then 1 else 0) ≤ 1 := by split <;> omega
  omega

/-- In 4-bit mode one byte is two phases: the byte itself, then the byte
shifted left by the nibble width. -/
theorem writeByteEvs_four (c : ChipData) (hd0 : c.d0 = UNDEFINED) (b : Nat)
    (hb : b < 256) :
    writeByteEvs c b = writePhaseEvs c b ++ writePhaseEvs c ((b <<< 4) % 256) := by
  unfold writeByteEvs
  have hbpc : bpc c = 4 := by unfold bpc; rw [if_pos hd0]
  rw [hbpc]
  have h2 : writeJEvs c (8 / 4) b =
      writePhaseEvs c b ++ (writePhaseEvs c (phaseMasks c b).2.2 ++ []) := rfl
  rw [h2, List.append_nil]
  have hdat : (phaseMasks c b).2.2 = (b <<< 4) % 256 := by
    unfold phaseMasks
    rw [dataLoop_datum _ _ _ _ _ hb, hbpc]
  rw [hdat]

/-- Claim C7.  In 4-bit mode (`d0` UNDEFINED) every byte is transferred
as two phases, high nibble first on `d7..d4`: the first phase drives pin
`pins i` with bit `7-i` of the byte and the second with bit `3-i`; and on
read the nibble sampled first occupies the high 4 bits of the byte stored
in the output buffer. -/
theorem claim_c7_nibbles (c : ChipData) (b r1 r2 : Nat)
    (hd0 : c.d0 = UNDEFINED) (hb : b < 256)
    (hinj : ∀ k, k < bpc c → ∀ l, l < bpc c → pins c k = pins c l → k = l)
    (hen : ∀ k, k < bpc c → pins c k ≠ c.enwr) :
    writeByteEvs c b = writePhaseEvs c b ++ writePhaseEvs c ((b <<< 4) % 256) ∧
    (∀ i, i < 4 → (phaseMasks c b).2.1.testBit (pins c i) = b.testBit (7 - i)) ∧
    (∀ i, i < 4 →
      (phaseMasks c ((b <<< 4) % 256)).2.1.testBit (pins c i) = b.testBit (3 - i)) ∧
    readByteVal c [r1, r2] = 16 * readPhaseVal c r1 0 + readPhaseVal c r2 0 ∧
    readPhaseVal c r1 0 < 16 := by
  have hbpc : bpc c = 4 := by unfold bpc; rw [if_pos hd0]
  have hinj' : ∀ k l, k < bpc c → l < bpc c → pins c k = pins c l → k = l :=
    fun k l hk hl => hinj k hk l hl
  have h1 := readPhaseVal_four c hd0 r1 0 (by omega)
  have h2 := readPhaseVal_four c hd0 r2 (readPhaseVal c r1 0) h1.2
  refine ⟨writeByteEvs_four c hd0 b hb, ?_, ?_, ?_, h1.2⟩
  · intro i hi
    exact (phaseMasks_data_bits c b hb i (by omega) hinj' hen).1
  · intro i hi
    have hlt : (b <<< 4) % 256 < 256 := Nat.mod_lt _ (by norm_num)
    have hh := (phaseMasks_data_bits c ((b <<< 4) % 256) hlt i (by omega) hinj' hen).1
    rw [hh]
    rw [show (256 : Nat) = 2 ^ 8 by norm_num, Nat.testBit_mod_two_pow,
      Nat.testBit_shiftLeft]
    have e1 : 7 - i < 8 := by omega
    have e2 : 4 ≤ 7 - i := by omega
    have e3 : 7 - i - 4 = 3 - i := by omega
    simp [e1, e2, e3]
  · have hbv : readByteVal c [r1, r2] = readPhaseVal c r2 (readPhaseVal c r1 0) := rfl
    rw [hbv, h2.1]

/-- Witness for claim C7 on the concrete 4-bit descriptor with byte 0x3C. -/
theorem claim_c7_nibbles_witness :
    (sampleChip4.d0 = UNDEFINED ∧ (60 : Nat) < 256) ∧
    writeByteEvs sampleChip4 60 =
      writePhaseEvs sampleChip4 60 ++ writePhaseEvs sampleChip4 ((60 <<< 4) % 256) ∧
    (phaseMasks sampleChip4 60).2.1.testBit (pins sampleChip4 0) =
      (60 : Nat).testBit 7 ∧
    readByteVal sampleChip4 [7, 9] =
      16 * readPhaseVal sampleChip4 7 0 + readPhaseVal sampleChip4 9 0 := by
  have h := claim_c7_nibbles sampleChip4 60 7 9 (by decide) (by decide)
    (by decide) (by decide)
  exact ⟨⟨by decide, by decide⟩, h.1, by
    have := h.2.1 0 (by decide)
    simpa using this, h.2.2.2.1⟩

/-! ## Function-select field arithmetic (claim C9) -/

theorem fieldShift_le (p : Nat) : fieldShift p ≤ 27 := by
  unfold fieldShift
  have h : p % 10 < 10 := Nat.mod_lt p (by norm_num)
  omega

theorem testBit_u32max (j : Nat) : (4294967295 : Nat).testBit j = decide (j < 32) := by
  rw [show (4294967295 : Nat) = 2 ^ 32 - 1 by norm_num, Nat.testBit_two_pow_sub_one]

theorem testBit_seven (j : Nat) : (7 : Nat).testBit j = decide (j < 3) := by
  rw [show (7 : Nat) = 2 ^ 3 - 1 by norm_num, Nat.testBit_two_pow_sub_one]

/-- Writing the 3-bit field of pin `q` sets that field to `m` and leaves
every field with a different shift untouched. -/
theorem getModeWord_setModeWord (w p q m : Nat) (hm : m < 8) :
    getModeWord (setModeWord w q m) p =
      if p % 10 = q % 10 then m else getModeWord w p := by
  have hsp : fieldShift p ≤ 27 := fieldShift_le p
  have hsq : fieldShift q ≤ 27 := fieldShift_le q
  by_cases hmod : p % 10 = q % 10
  · rw [if_pos hmod]
    have hf : fieldShift p = fieldShift q := by unfold fieldShift; rw [hmod]
    apply Nat.eq_of_testBit_eq
    intro i
    unfold getModeWord setModeWord
    rw [hf, Nat.testBit_land, Nat.testBit_shiftRight, testBit_seven,
      Nat.testBit_lor, Nat.testBit_land, Nat.testBit_xor, testBit_u32max,
      Nat.testBit_shiftLeft, Nat.testBit_shiftLeft, testBit_seven]
    have e1 : fieldShift q + i - fieldShift q = i := by omega
    rw [e1]
    by_cases h3 : i < 3
    · have e2 : fieldShift q + i < 32 := by omega
      have e3 : fieldShift q ≤ fieldShift q + i := by omega
      simp [h3, e2, e3]
    · have hm' : m.testBit i = false := by
        apply Nat.testBit_lt_two_pow
        calc m < 8 := hm
        _ = 2 ^ 3 := by norm_num
        _ ≤ 2 ^ i := Nat.pow_le_pow_right (by norm_num) (by omega)
      simp [h3, hm']
  · rw [if_neg hmod]
    apply Nat.eq_of_testBit_eq
    intro i
    unfold getModeWord setModeWord
    rw [Nat.testBit_land, Nat.testBit_shiftRight, testBit_seven,
      Nat.testBit_land, Nat.testBit_shiftRight, testBit_seven,
      Nat.testBit_lor, Nat.testBit_land, Nat.testBit_xor, testBit_u32max,
      Nat.testBit_shiftLeft, Nat.testBit_shiftLeft, testBit_seven]
    by_cases h3 : i < 3
    · have e2 : fieldShift p + i < 32 := by omega
      have hkey : ¬(fieldShift q ≤ fieldShift p + i ∧
          fieldShift p + i - fieldShift q < 3) := by
        unfold fieldShift at *
        omega
      by_cases hle : fieldShift q ≤ fieldShift p + i
      · have hge : 3 ≤ fieldShift p + i - fieldShift q := by
          rcases Nat.lt_or_ge (fieldShift p + i - fieldShift q) 3 with h | h
          · exact absurd ⟨hle, h⟩ hkey
          · exact h
        have hm' : m.testBit (fieldShift p + i - fieldShift q) = false := by
          apply Nat.testBit_lt_two_pow
          calc m < 8 := hm
          _ = 2 ^ 3 := by norm_num
          _ ≤ 2 ^ (fieldShift p + i - fieldShift q) :=
            Nat.pow_le_pow_right (by norm_num) hge
        have hd3 : ¬(fieldShift p + i - fieldShift q < 3) := by omega
        simp [h3, e2, hle, hm', hd3]
      · simp [h3, e2, hle]
    · simp [h3]

theorem bufGet_bufSet (b : Buf3) (i j v : Nat) (hi : i ≤ 2) (hj : j ≤ 2) :
    bufGet (bufSet b i v) j = if j = i then v else bufGet b j := by
  unfold bufGet bufSet
  interval_cases i <;> interval_cases j <;> simp

/-- Staging a mode for pin `p` changes only pin `p`'s field among pins
0..29. -/
theorem getMode_setPinMode (b : Buf3) (p q m : Nat) (hp : p ≤ 29) (hq : q ≤ 29)
    (hm : m < 8) :
    getMode (setPinMode b p m) q = if q = p then m else getMode b q := by
  unfold getMode setPinMode
  rw [bufGet_bufSet _ _ _ _ (by omega) (by omega)]
  by_cases hw : q / 10 = p / 10
  · rw [if_pos hw, getModeWord_setModeWord _ _ _ _ hm]
    by_cases hmod : q % 10 = p % 10
    · have he : q = p := by omega
      simp [he]
    · have hne : q ≠ p := by omega
      rw [if_neg hmod, if_neg hne, hw]
  · rw [if_neg hw, if_neg (by omega : q ≠ p)]

theorem setPinsMode_succ (c : ChipData) (n m : Nat) (b : Buf3) :
    setPinsMode c (n + 1) m b = setPinMode (setPinsMode c n m b) (pins c n) m := by
  unfold setPinsMode
  rw [List.range_succ, List.foldl_append]
  rfl

theorem getMode_setPinsMode_of_ne (c : ChipData) (n m : Nat) (b : Buf3) (q : Nat)
    (hm : m < 8) (hq : q ≤ 29) (hpins : ∀ i, i < n → pins c i ≤ 27)
    (hne : ∀ i, i < n → pins c i ≠ q) :
    getMode (setPinsMode c n m b) q = getMode b q := by
  induction n with
  | zero => rfl
  | succ n ih =>
    rw [setPinsMode_succ,
      getMode_setPinMode _ _ _ _ (by have := hpins n (Nat.lt_succ_self n); omega)
        hq hm,
      if_neg (Ne.symm (hne n (Nat.lt_succ_self n)))]
    exact ih (fun i hi => hpins i (by omega)) (fun i hi => hne i (by omega))

theorem getMode_setPinsMode_mem (c : ChipData) (n m : Nat) (b : Buf3) (i : Nat)
    (hm : m < 8) (hi : i < n) (hpins : ∀ k, k < n → pins c k ≤ 27) :
    getMode (setPinsMode c n m b) (pins c i) = m := by
  induction n with
  | zero => omega
  | succ n ih =>
    rw [setPinsMode_succ,
      getMode_setPinMode _ _ _ _
        (by have := hpins n (Nat.lt_succ_self n); omega)
        (by have := hpins i hi; omega) hm]
    by_cases he : pins c i = pins c n
    · rw [if_pos he]
    · rw [if_neg he]
      have hin : i < n := by
        rcases Nat.lt_or_ge i n with h | h
        · exact h
        · exact absurd (by omega : i = n) (fun hh => he (by rw [hh]))
      exact ih hin (fun k hk => hpins k (by omega))

/-- Claim C9.  After a write transfer, the committed function-select words
equal the entry snapshot on every pin field other than the looped data
pins (the final restore rewrites all three words wholesale from the local
snapshot), and every looped data pin's field equals input. -/
theorem claim_c9_frame (c : ChipData) (data : List Nat) (cl0 se0 : Nat)
    (b : Buf3) (q : Nat) (hq : q ≤ 29)
    (hpins : ∀ i, i < bpc c → pins c i ≤ 27)
    (hnd : ∀ i, i < bpc c → pins c i ≠ q) :
    getMode (writeFinalBuf c b) q = getMode b q ∧
    (∀ i, i < bpc c → getMode (writeFinalBuf c b) (pins c i) = PI_INPUT) ∧
    (∃ pre, writeparallelEvs c data cl0 se0 b =
      pre ++ [Ev.fsel 0 (writeFinalBuf c b).w0, Ev.fsel 1 (writeFinalBuf c b).w1,
              Ev.fsel 2 (writeFinalBuf c b).w2]) := by
  refine ⟨?_, ?_, ?_⟩
  · unfold writeFinalBuf writeOutBuf
    rw [getMode_setPinsMode_of_ne c _ _ _ q (by decide) hq hpins hnd,
      getMode_setPinsMode_of_ne c _ _ _ q (by decide) hq hpins hnd]
  · intro i hi
    unfold writeFinalBuf
    exact getMode_setPinsMode_mem c _ _ _ i (by decide) hi hpins
  · refine ⟨[Ev.fsel 0 (writeOutBuf c b).w0, Ev.fsel 1 (writeOutBuf c b).w1,
      Ev.fsel 2 (writeOutBuf c b).w2, Ev.clr cl0, Ev.set se0] ++
      (data.map (writeByteEvs c)).flatten, ?_⟩
    unfold writeparallelEvs
    rfl

/-- Witness for claim C9 on the concrete 8-bit descriptor, an arbitrary
snapshot and the non-data pin 0. -/
theorem claim_c9_frame_witness :
    getMode (writeFinalBuf sampleChip8 ⟨123456789, 987654321, 55555⟩) 0 =
      getMode ⟨123456789, 987654321, 55555⟩ 0 ∧
    getMode (writeFinalBuf sampleChip8 ⟨123456789, 987654321, 55555⟩)
      (pins sampleChip8 0) = PI_INPUT ∧
    (∃ pre, writeparallelEvs sampleChip8 [60] 0 0 ⟨123456789, 987654321, 55555⟩ =
      pre ++ [Ev.fsel 0 (writeFinalBuf sampleChip8 ⟨123456789, 987654321, 55555⟩).w0,
              Ev.fsel 1 (writeFinalBuf sampleChip8 ⟨123456789, 987654321, 55555⟩).w1,
              Ev.fsel 2 (writeFinalBuf sampleChip8 ⟨123456789, 987654321, 55555⟩).w2]) := by
  have h := claim_c9_frame sampleChip8 [60] 0 0 ⟨123456789, 987654321, 55555⟩ 0
    (by decide) (by decide) (by decide)
  exact ⟨h.1, h.2.1 0 (by decide), h.2.2⟩

end Parallel
